import Mathlib

/-!
Verification of the `span` interval library (package `interval`).

The Go code computes over IEEE `float64`. The embedding idealises finite
floating-point values as rationals (`ℚ`): all claim statements range over
finite inputs, and the epsilon comparisons in the source (`1e-15`) are
exact rational comparisons here. Where a function's behaviour on the
non-finite values NaN/±Inf is itself the subject of a claim (`Limit`),
a dedicated value type `FV` with explicit NaN/±Inf constructors is used.
-/

namespace Span

/-- The absolute tolerance used by `Deval` (`const epsilon = 1e-15` in
`interval.go`). -/
def epsilon : ℚ := 1 / 10 ^ 15

/-- Embedding of `Deval` (interval.go). The NaN/Inf guards of the source
are outside the ℚ embedding (all rationals are finite); the remaining
body is: `delta := b - a`; if `|delta| < epsilon` then return `0` when
`|val-a| < epsilon` and fail otherwise; else return `(val-a)/delta`.
`none` stands for the Go error return. -/
def Deval (val a b : ℚ) : Option ℚ :=
  let delta := b - a
  if |delta| < epsilon then
    if |val - a| < epsilon then some 0
    else none
  else
    some ((val - a) / delta)

/-- Embedding of `Eval` (interval.go): `a + (b-a)*t`. The NaN branch of
the source is outside the ℚ embedding. -/
def Eval (t a b : ℚ) : ℚ := a + (b - a) * t

/-- Embedding of `Remap` (interval.go): `Deval` on the source interval,
then `Eval` into the destination interval; any `Deval` failure is
propagated as a failure. -/
def Remap (val srcA srcB dstA dstB : ℚ) : Option ℚ :=
  match Deval val srcA srcB with
  | none => none
  | some t => some (Eval t dstA dstB)

/-- Go `math.Round`: round half away from zero. -/
def mathRound (q : ℚ) : ℤ :=
  if q < 0 then -⌊-q + 1 / 2⌋ else ⌊q + 1 / 2⌋

/-- Embedding of `Snap` (interval.go): error when `steps <= 0`; clamp
`val` to the ordered bounds, returning the hit bound; return `a` for a
zero-width interval; otherwise de-interpolate, round `t*steps` to the
nearest step index (`math.Round`), and re-interpolate. -/
def Snap (val : ℚ) (steps : ℤ) (a b : ℚ) : Option ℚ :=
  if steps ≤ 0 then none
  else
    let mn := if a > b then b else a
    let mx := if a > b then a else b
    if val ≤ mn then some mn
    else if val ≥ mx then some mx
    else if a = b then some a
    else
      match Deval val a b with
      | none => none
      | some t =>
          let stepIndex : ℤ := mathRound (t * (steps : ℚ))
          let snappedT : ℚ := (stepIndex : ℚ) / (steps : ℚ)
          some (Eval snappedT a b)

/-- Embedding of `Subintervals` (interval.go): error for negative
`steps`, empty for `steps = 0`, `steps` copies of `(a,a)` for a
zero-width interval, and otherwise the pairs
`(a + i*stepSize, a + (i+1)*stepSize)` with `stepSize = (b-a)/steps`. -/
def Subintervals (steps : ℤ) (a b : ℚ) : Option (List (ℚ × ℚ)) :=
  if steps < 0 then none
  else if steps = 0 then some []
  else if a = b then some (List.replicate steps.toNat (a, a))
  else
    let stepSize := (b - a) / (steps : ℚ)
    some ((List.range steps.toNat).map fun (i : ℕ) =>
      (a + (i : ℚ) * stepSize, a + ((i : ℚ) + 1) * stepSize))

end Span

namespace Span

/- ### Claim C1: Deval error condition -/

/-- C1: for all finite inputs, `Deval` fails exactly when `|b-a| < 1e-15`
and `|val-a| ≥ 1e-15`; when both are below the tolerance it returns
`t = 0`; otherwise it returns `(val-a)/(b-a)`; in particular
`Deval 5 5 5 = 0` with no error and `Deval 5.001 5 5` fails. -/
theorem deval_error_condition (val a b : ℚ) :
    (Deval val a b = none ↔ (|b - a| < epsilon ∧ ¬ |val - a| < epsilon)) ∧
    (|b - a| < epsilon → |val - a| < epsilon → Deval val a b = some 0) ∧
    (¬ |b - a| < epsilon → Deval val a b = some ((val - a) / (b - a))) ∧
    Deval 5 5 5 = some 0 ∧ Deval (5001 / 1000) 5 5 = none := by
  refine ⟨?_, ?_, ?_, ?_, ?_⟩
  · simp only [Deval]
    split_ifs with h1 h2
    · simp [h1, h2]
    · simp [h1, h2]
    · simp [h1]
  · intro h1 h2
    simp only [Deval]
    rw [if_pos h1, if_pos h2]
  · intro h1
    simp only [Deval]
    rw [if_neg h1]
  · simp only [Deval, epsilon]
    norm_num
  · simp only [Deval, epsilon]
    norm_num
    intro h
    rw [abs_of_pos (by norm_num)] at h
    norm_num at h

/-- Witness for C1 at `val = 5, a = 5, b = 5`. -/
theorem deval_error_condition_witness :
    Deval 5 5 5 = some 0 :=
  (deval_error_condition 5 5 5).2.1
    (by unfold epsilon; norm_num) (by unfold epsilon; norm_num)

/- ### Claim C6: direction symmetry of Eval -/

/-- C6: interpolation is direction-symmetric with exact equality:
`Eval t a b = Eval (1-t) b a` for all finite `t, a, b`. -/
theorem eval_direction_symmetry (t a b : ℚ) :
    Eval t a b = Eval (1 - t) b a := by
  unfold Eval
  ring

/- ### Claim C3: Remap is Eval ∘ Deval and fails only on the source -/

/-- C3: `Remap` returns `Eval (Deval val srcA srcB) dstA dstB` and fails
exactly when `Deval` fails on the source pair; a zero-width destination
maps every valid input to that single point; `Remap 5 0 10 100 200 = 150`. -/
theorem remap_composition (val srcA srcB dstA dstB : ℚ) :
    Remap val srcA srcB dstA dstB =
      (Deval val srcA srcB).map (fun t => Eval t dstA dstB) ∧
    (Remap val srcA srcB dstA dstB = none ↔ Deval val srcA srcB = none) ∧
    (dstA = dstB →
      Remap val srcA srcB dstA dstB = (Deval val srcA srcB).map (fun _ => dstA)) ∧
    Remap 5 0 10 100 200 = some 150 := by
  refine ⟨?_, ?_, ?_, ?_⟩
  · unfold Remap
    cases Deval val srcA srcB <;> simp
  · unfold Remap
    cases Deval val srcA srcB <;> simp
  · intro h
    subst h
    unfold Remap
    cases Deval val srcA srcB <;> simp [Eval]
  · unfold Remap Deval Eval epsilon
    norm_num

/-- Witness for C3 at `dstA = dstB = 7`, source `[0, 10]`, `val = 2`. -/
theorem remap_composition_witness :
    Remap 2 0 10 7 7 = (Deval 2 0 10).map (fun _ => (7 : ℚ)) :=
  (remap_composition 2 0 10 7 7).2.2.1 rfl

/- ### Claim C2: Limit (clamp) and non-finite values -/

/-- A `float64` value as seen by `Limit`: NaN, a signed infinity, or a
finite value (idealised as a rational). -/
inductive FV where
  | nan : FV
  | neginf : FV
  | posinf : FV
  | fin : ℚ → FV
deriving DecidableEq

/-- `math.IsNaN`. -/
def FV.isNan : FV → Bool
  | .nan => true
  | _ => false

/-- Go `<` on `float64` values: any comparison with NaN is false,
`-Inf` is below and `+Inf` above every other value. -/
def FV.lt : FV → FV → Bool
  | .nan, _ => false
  | _, .nan => false
  | .neginf, .neginf => false
  | .neginf, _ => true
  | _, .neginf => false
  | .posinf, _ => false
  | .fin _, .posinf => true
  | .fin p, .fin q => decide (p < q)

/-- Go `>` on `float64` values. -/
def FV.gt (x y : FV) : Bool := FV.lt y x

/-- Embedding of `Limit` (interval.go) over `FV`: NaN anywhere yields
NaN; an infinite `val` returns the raw `max` argument (for `+Inf`) or
the raw `min` argument (for `-Inf`) BEFORE the bounds are reordered;
otherwise the bounds are swapped into order and `val` is clamped. -/
def Limit (val mn mx : FV) : FV :=
  if val.isNan || mn.isNan || mx.isNan then FV.nan
  else if val = FV.posinf then mx
  else if val = FV.neginf then mn
  else
    let p := if FV.gt mn mx then (mx, mn) else (mn, mx)
    if FV.lt val p.1 then p.1
    else if FV.gt val p.2 then p.2
    else val

end Span

namespace Span

/-- C2 counterexample: `Limit` is not invariant under swapping the bound
arguments when the value is `+Inf`: with bounds `0` and `10`,
`Limit (+Inf) 0 10 = 10` but `Limit (+Inf) 10 0 = 0`, because the
infinity branch returns the raw argument before the bounds are
reordered. -/
theorem limit_inf_not_order_invariant :
    Limit FV.posinf (FV.fin 0) (FV.fin 10) ≠
      Limit FV.posinf (FV.fin 10) (FV.fin 0) := by
  decide

/-- Swapping two finite bounds does not change `Limit` on a finite
value: the bound-reordering step normalizes both argument orders to the
same pair. -/
lemma limit_fin_comm (q p r : ℚ) :
    Limit (FV.fin q) (FV.fin p) (FV.fin r) = Limit (FV.fin q) (FV.fin r) (FV.fin p) := by
  simp only [Limit, FV.isNan, FV.gt, FV.lt, Bool.or_self, Bool.or_false, Bool.false_or,
    decide_eq_true_eq, Bool.false_eq_true, if_false, reduceCtorEq]
  rcases lt_trichotomy p r with h | h | h
  · rw [if_neg (not_lt.mpr h.le), if_pos h]
  · subst h
    rfl
  · rw [if_pos h, if_neg (not_lt.mpr h.le)]

/-- C2 amended: `Limit` is order-invariant for NaN and finite values,
but for `val = +Inf` it returns the raw third argument and for
`val = -Inf` the raw second argument (NaN bounds still dominate), so
swapping the bounds changes the result for an infinite value whenever
the bounds differ. -/
theorem limit_order_invariance_finite (lo hi : FV) (q : ℚ) :
    Limit (FV.fin q) lo hi = Limit (FV.fin q) hi lo ∧
    Limit FV.nan lo hi = Limit FV.nan hi lo ∧
    Limit FV.posinf lo hi =
      (if lo.isNan || hi.isNan then FV.nan else hi) ∧
    Limit FV.neginf lo hi =
      (if lo.isNan || hi.isNan then FV.nan else lo) := by
  refine ⟨?_, ?_, ?_, ?_⟩
  · cases lo <;> cases hi <;> first
      | rfl
      | apply limit_fin_comm
  · cases lo <;> cases hi <;> rfl
  · cases lo <;> cases hi <;> rfl
  · cases lo <;> cases hi <;> rfl

/-- Witness for C2's amended theorem: no hypotheses to discharge, shown
at `lo = fin 10`, `hi = fin 0`, `q = 5`. -/
theorem limit_order_invariance_finite_witness :
    Limit (FV.fin 5) (FV.fin 10) (FV.fin 0) =
      Limit (FV.fin 5) (FV.fin 0) (FV.fin 10) :=
  (limit_order_invariance_finite (FV.fin 10) (FV.fin 0) 5).1

/- ### Claim C5: Subintervals coverage -/

/-- C5: for `steps > 0`, `Subintervals` returns exactly `steps` pairs
covering `[a,b]` contiguously: the first start is `a`, each pair's end
equals the next pair's start, and the last end is `b` exactly;
`steps = 0` yields the empty sequence and negative `steps` fails. -/
theorem subintervals_coverage (steps : ℤ) (a b : ℚ) :
    (steps < 0 → Subintervals steps a b = none) ∧
    Subintervals 0 a b = some [] ∧
    (0 < steps → ∃ l, Subintervals steps a b = some l ∧
      (l.length : ℤ) = steps ∧
      (∀ hl : 0 < l.length, (l.get ⟨0, hl⟩).1 = a) ∧
      (∀ i (h : i + 1 < l.length), (l.get ⟨i, by omega⟩).2 = (l.get ⟨i + 1, h⟩).1) ∧
      (∀ hl : 0 < l.length, (l.get ⟨l.length - 1, by omega⟩).2 = b)) := by
  refine ⟨?_, ?_, ?_⟩
  · intro h
    simp only [Subintervals]
    rw [if_pos h]
  · simp [Subintervals]
  · intro hpos
    have hne : steps ≠ 0 := hpos.ne'
    have hnneg : ¬ steps < 0 := not_lt.mpr hpos.le
    have hcast : ((steps.toNat : ℤ)) = steps := Int.toNat_of_nonneg hpos.le
    have hQ : ((steps.toNat : ℚ)) = (steps : ℚ) := by exact_mod_cast hcast
    have hn0 : 0 < steps.toNat := by omega
    by_cases hab : a = b
    · refine ⟨List.replicate steps.toNat (a, a), ?_, ?_, ?_, ?_, ?_⟩
      · simp only [Subintervals]
        rw [if_neg hnneg, if_neg hne, if_pos hab]
      · simp [hcast]
      · intro hl
        simp [List.get_eq_getElem, List.getElem_replicate]
      · intro i h
        simp [List.get_eq_getElem, List.getElem_replicate]
      · intro hl
        simp only [List.get_eq_getElem, List.getElem_replicate]
        exact hab
    · set s : ℚ := (b - a) / (steps : ℚ) with hs
      refine ⟨(List.range steps.toNat).map fun (i : ℕ) => (a + (i : ℚ) * s, a + ((i : ℚ) + 1) * s),
        ?_, ?_, ?_, ?_, ?_⟩
      · simp only [Subintervals]
        rw [if_neg hnneg, if_neg hne, if_neg hab]
      · simp [hcast]
      · intro hl
        simp
      · intro i h
        simp only [List.get_eq_getElem, List.getElem_map, List.getElem_range]
        push_cast
        ring
      · intro hl
        simp only [List.get_eq_getElem, List.getElem_map, List.getElem_range,
          List.length_map, List.length_range]
        have hQs : (steps : ℚ) ≠ 0 := by exact_mod_cast hne
        have h1 : ((steps.toNat - 1 : ℕ) : ℚ) = (steps : ℚ) - 1 := by
          rw [Nat.cast_sub hn0, hQ, Nat.cast_one]
        rw [h1, hs]
        field_simp

/-- Witness for C5 at `steps = 4`, `a = 0`, `b = 1`. -/
theorem subintervals_coverage_witness :
    ∃ l, Subintervals 4 0 1 = some l ∧
      (l.length : ℤ) = 4 ∧
      (∀ hl : 0 < l.length, (l.get ⟨0, hl⟩).1 = 0) ∧
      (∀ i (h : i + 1 < l.length), (l.get ⟨i, by omega⟩).2 = (l.get ⟨i + 1, h⟩).1) ∧
      (∀ hl : 0 < l.length, (l.get ⟨l.length - 1, by omega⟩).2 = 1) :=
  (subintervals_coverage 4 0 1).2.2 (by norm_num)

/- ### Claim C4: Snap -/

/-- `Eval` at a parameter in `[0,1]` stays inside the normalized
interval. -/
lemma eval_mem (a b s : ℚ) (h0 : 0 ≤ s) (h1 : s ≤ 1) :
    min a b ≤ Eval s a b ∧ Eval s a b ≤ max a b := by
  rcases le_total a b with hab | hab
  · rw [min_eq_left hab, max_eq_right hab]
    unfold Eval
    constructor <;> nlinarith [mul_nonneg (sub_nonneg.mpr hab) h0,
      mul_le_of_le_one_right (sub_nonneg.mpr hab) h1]
  · rw [min_eq_right hab, max_eq_left hab]
    unfold Eval
    constructor <;> nlinarith [mul_nonneg (sub_nonneg.mpr hab) h0,
      mul_le_of_le_one_right (sub_nonneg.mpr hab) h1]

/-- `Eval` at grid parameter `0` is `a`. -/
lemma eval_zero (a b : ℚ) (steps : ℤ) : Eval (((0 : ℤ) : ℚ) / (steps : ℚ)) a b = a := by
  unfold Eval
  norm_num

/-- `Eval` at grid parameter `steps/steps` is `b`. -/
lemma eval_steps (a b : ℚ) (steps : ℤ) (h : steps ≠ 0) :
    Eval (((steps : ℤ) : ℚ) / (steps : ℚ)) a b = b := by
  have : ((steps : ℚ)) ≠ 0 := by exact_mod_cast h
  unfold Eval
  rw [div_self this]
  ring

/-- C4: `Snap` fails exactly for `steps ≤ 0`; otherwise it returns a
value clamped into `[min a b, max a b]`, equal to `a` for a zero-width
interval, and always lying exactly on one of the `steps+1` grid points
`Eval (k/steps) a b`, `0 ≤ k ≤ steps`; and `Snap 4.8 10 0 10 = 5`. -/
theorem snap_spec (val : ℚ) (steps : ℤ) (a b : ℚ) :
    (steps ≤ 0 → Snap val steps a b = none) ∧
    (0 < steps → ∃ r, Snap val steps a b = some r ∧
      min a b ≤ r ∧ r ≤ max a b ∧
      (a = b → r = a) ∧
      (∃ k : ℤ, 0 ≤ k ∧ k ≤ steps ∧ r = Eval ((k : ℚ) / (steps : ℚ)) a b)) ∧
    Snap (24 / 5) 10 0 10 = some 5 := by
  refine ⟨?_, ?_, ?_⟩
  · intro h
    simp only [Snap]
    rw [if_pos h]
  · intro hpos
    have hsne : steps ≠ 0 := hpos.ne'
    have hnle : ¬ steps ≤ 0 := not_le.mpr hpos
    have hmn : (if a > b then b else a) = min a b := by
      rcases lt_or_le b a with h | h
      · rw [if_pos h, min_eq_right h.le]
      · rw [if_neg (not_lt.mpr h), min_eq_left h]
    have hmx : (if a > b then a else b) = max a b := by
      rcases lt_or_le b a with h | h
      · rw [if_pos h, max_eq_left h.le]
      · rw [if_neg (not_lt.mpr h), max_eq_right h]
    simp only [Snap]
    rw [if_neg hnle, hmn, hmx]
    split_ifs with h1 h2 h3
    · refine ⟨min a b, rfl, le_refl _, min_le_max, fun hab => by rw [hab, min_self], ?_⟩
      rcases le_total a b with hab | hab
      · exact ⟨0, le_refl 0, hpos.le, by rw [min_eq_left hab, eval_zero]⟩
      · exact ⟨steps, hpos.le, le_refl _, by rw [min_eq_right hab, eval_steps a b steps hsne]⟩
    · refine ⟨max a b, rfl, min_le_max, le_refl _, fun hab => by rw [hab, max_self], ?_⟩
      rcases le_total a b with hab | hab
      · exact ⟨steps, hpos.le, le_refl _, by rw [max_eq_right hab, eval_steps a b steps hsne]⟩
      · exact ⟨0, le_refl 0, hpos.le, by rw [max_eq_left hab, eval_zero]⟩
    · refine ⟨a, rfl, by rw [h3, min_self], by rw [h3, max_self], fun _ => rfl, 0, le_refl 0,
        hpos.le, by rw [eval_zero]⟩
    · push_neg at h1 h2
      have hmmx : max a b - min a b = |b - a| := by
        rcases le_total a b with h | h
        · rw [max_eq_right h, min_eq_left h, abs_of_nonneg (sub_nonneg.mpr h)]
        · rw [max_eq_left h, min_eq_right h, abs_of_nonpos (sub_nonpos.mpr h)]
          ring
      by_cases hd : |b - a| < epsilon
      · have hva : |val - a| < epsilon := by
          have ha1 : min a b ≤ a := min_le_left a b
          have ha2 : a ≤ max a b := le_max_left a b
          have : |val - a| ≤ max a b - min a b := by
            rw [abs_sub_le_iff]
            constructor <;> linarith
          linarith [hmmx ▸ this]
        have hdev : Deval val a b = some 0 := by
          simp only [Deval]
          rw [if_pos hd, if_pos hva]
        rw [hdev]
        have hr0 : mathRound (0 * (steps : ℚ)) = 0 := by
          simp only [mathRound, zero_mul]
          norm_num
        simp only [hr0]
        refine ⟨Eval (((0 : ℤ) : ℚ) / (steps : ℚ)) a b, rfl, ?_, ?_, ?_, 0, le_refl 0, hpos.le, rfl⟩
        · rw [eval_zero]
          exact min_le_left a b
        · rw [eval_zero]
          exact le_max_left a b
        · intro hab
          exact absurd hab h3
      · have hdev : Deval val a b = some ((val - a) / (b - a)) := by
          simp only [Deval]
          rw [if_neg hd]
        rw [hdev]
        set t : ℚ := (val - a) / (b - a) with ht
        have hQs : (0 : ℚ) < (steps : ℚ) := by exact_mod_cast hpos
        have ht01 : 0 < t ∧ t < 1 := by
          rcases lt_or_le a b with h | h
          · have hminv : min a b = a := min_eq_left h.le
            have hmaxv : max a b = b := max_eq_right h.le
            rw [hminv] at h1
            rw [hmaxv] at h2
            constructor
            · exact div_pos (by linarith) (by linarith)
            · rw [div_lt_one (by linarith)]
              linarith
          · have hba : b < a := lt_of_le_of_ne h (fun he => h3 he.symm)
            have hminv : min a b = b := min_eq_right hba.le
            have hmaxv : max a b = a := max_eq_left hba.le
            rw [hminv] at h1
            rw [hmaxv] at h2
            have htt : t = (a - val) / (a - b) := by
              rw [ht]
              rw [div_eq_div_iff (by linarith) (by linarith)]
              ring
            rw [htt]
            constructor
            · exact div_pos (by linarith) (by linarith)
            · rw [div_lt_one (by linarith)]
              linarith
        have hx0 : 0 < t * (steps : ℚ) := mul_pos ht01.1 hQs
        have hx1 : t * (steps : ℚ) < (steps : ℚ) := by
          nlinarith [ht01.2]
        set k : ℤ := mathRound (t * (steps : ℚ)) with hk
        have hkval : k = ⌊t * (steps : ℚ) + 1 / 2⌋ := by
          rw [hk]
          unfold mathRound
          rw [if_neg (not_lt.mpr hx0.le)]
        have hk0 : 0 ≤ k := by
          rw [hkval]
          exact Int.floor_nonneg.mpr (by linarith)
        have hks : k ≤ steps := by
          have : k < steps + 1 := by
            rw [hkval]
            rw [Int.floor_lt]
            push_cast
            linarith
          omega
        refine ⟨Eval ((k : ℚ) / (steps : ℚ)) a b, rfl, ?_, ?_, fun hab => absurd hab h3,
          k, hk0, hks, rfl⟩
        · have hs0 : 0 ≤ (k : ℚ) / (steps : ℚ) :=
            div_nonneg (by exact_mod_cast hk0) hQs.le
          have hs1 : (k : ℚ) / (steps : ℚ) ≤ 1 := by
            rw [div_le_one hQs]
            exact_mod_cast hks
          exact (eval_mem a b _ hs0 hs1).1
        · have hs0 : 0 ≤ (k : ℚ) / (steps : ℚ) :=
            div_nonneg (by exact_mod_cast hk0) hQs.le
          have hs1 : (k : ℚ) / (steps : ℚ) ≤ 1 := by
            rw [div_le_one hQs]
            exact_mod_cast hks
          exact (eval_mem a b _ hs0 hs1).2
  · norm_num [Snap, Deval, Eval, mathRound, epsilon]

/-- Witness for C4 at `val = 4.8, steps = 10, a = 0, b = 10`. -/
theorem snap_spec_witness :
    ∃ r, Snap (24 / 5) 10 0 10 = some r ∧
      min (0 : ℚ) 10 ≤ r ∧ r ≤ max (0 : ℚ) 10 ∧
      ((0 : ℚ) = 10 → r = 0) ∧
      (∃ k : ℤ, 0 ≤ k ∧ k ≤ 10 ∧ r = Eval ((k : ℚ) / ((10 : ℤ) : ℚ)) 0 10) :=
  (snap_spec (24 / 5) 10 0 10).2.1 (by norm_num)

/- ### Claim C7: zero-width intervals and off-interval probes -/

/-- The normalized width equals the absolute delta. -/
lemma max_sub_min_eq_abs (a b : ℚ) : max a b - min a b = |b - a| := by
  rcases le_total a b with h | h
  · rw [max_eq_right h, min_eq_left h, abs_of_nonneg (sub_nonneg.mpr h)]
  · rw [max_eq_left h, min_eq_right h, abs_of_nonpos (sub_nonpos.mpr h)]
    ring

/-- C7 counterexample: on the zero-width interval `[5,5]` with probe
`6` (far outside the tolerance), `Snap` does NOT fail: it clamps the
probe to the bound and returns `5`. -/
theorem snap_zero_width_probe_returns_value :
    Snap 6 1 5 5 = some 5 := by
  norm_num [Snap]

/-- C7 amended: for a zero-width interval (`|b-a| < 1e-15`) and a probe
value that does not sit on it (`|val-a| ≥ 1e-15`), `Deval` and `Remap`
fail, but `Snap` (with a positive step count) clamps the probe to the
nearer normalized bound and returns that bound without error. -/
theorem zero_width_probe_behavior (val a b dstA dstB : ℚ) (steps : ℤ)
    (hw : |b - a| < epsilon) (hp : ¬ |val - a| < epsilon) (hs : 0 < steps) :
    Deval val a b = none ∧
    Remap val a b dstA dstB = none ∧
    Snap val steps a b = some (if val ≤ min a b then min a b else max a b) := by
  have hdev : Deval val a b = none := by
    simp only [Deval]
    rw [if_pos hw, if_neg hp]
  refine ⟨hdev, ?_, ?_⟩
  · unfold Remap
    rw [hdev]
  · have hmn : (if a > b then b else a) = min a b := by
      rcases lt_or_le b a with h | h
      · rw [if_pos h, min_eq_right h.le]
      · rw [if_neg (not_lt.mpr h), min_eq_left h]
    have hmx : (if a > b then a else b) = max a b := by
      rcases lt_or_le b a with h | h
      · rw [if_pos h, max_eq_left h.le]
      · rw [if_neg (not_lt.mpr h), max_eq_right h]
    simp only [Snap]
    rw [if_neg (not_le.mpr hs), hmn, hmx]
    by_cases h1 : val ≤ min a b
    · rw [if_pos h1, if_pos h1]
    · have h2 : val ≥ max a b := by
        by_contra h2
        push_neg at h1 h2
        have ha1 : min a b ≤ a := min_le_left a b
        have ha2 : a ≤ max a b := le_max_left a b
        have habs : |val - a| ≤ max a b - min a b := by
          rw [abs_sub_le_iff]
          constructor <;> linarith
        rw [max_sub_min_eq_abs] at habs
        exact hp (lt_of_le_of_lt habs hw)
      rw [if_neg h1, if_pos h2, if_neg h1]

/-- Witness for C7's amended theorem at
`val = 6, a = b = 5, dst = [1,2], steps = 1`. -/
theorem zero_width_probe_behavior_witness :
    Deval 6 5 5 = none ∧
    Remap 6 5 5 1 2 = none ∧
    Snap 6 1 5 5 = some (if (6 : ℚ) ≤ min 5 5 then min 5 5 else max 5 5) :=
  zero_width_probe_behavior 6 5 5 1 2 1
    (by norm_num [epsilon]) (by norm_num [epsilon]) (by norm_num)

/- ### Claim C8: circular buffer chronological retrieval -/

/-- Embedding of `circularBuffer` (spark.go): a fixed-size slice, a
write index and a wrapped-once flag. -/
structure CircularBuffer where
  data : List ℚ
  head : ℕ
  full : Bool

/-- Embedding of `newCircularBuffer` (spark.go): a size below 1 is
coerced to 1; the backing slice starts zero-filled. -/
def newCircularBuffer (size : ℤ) : CircularBuffer :=
  let sz := if size ≤ 0 then 1 else size.toNat
  ⟨List.replicate sz 0, 0, false⟩

/-- Embedding of `circularBuffer.Add` (spark.go): write at `head`,
advance `head` modulo the capacity, and mark the buffer full once the
head wraps to 0. -/
def CircularBuffer.Add (cb : CircularBuffer) (val : ℚ) : CircularBuffer :=
  let data := cb.data.set cb.head val
  let head := (cb.head + 1) % cb.data.length
  ⟨data, head, cb.full || decide (head = 0)⟩

/-- Embedding of `circularBuffer.GetAll` (spark.go): before the first
wrap return the prefix written so far; afterwards reorder the backing
slice as `data[head:] ++ data[:head]`. -/
def CircularBuffer.GetAll (cb : CircularBuffer) : List ℚ :=
  if cb.full then cb.data.drop cb.head ++ cb.data.take cb.head
  else cb.data.take cb.head

/-- Appending a whole sequence of values via `Add`, oldest first. -/
def feed (cb : CircularBuffer) (xs : List ℚ) : CircularBuffer :=
  xs.foldl CircularBuffer.Add cb

/-- One `Add` preserves the buffer invariant: after `n` writes into a
capacity-`c` buffer the head is `n % c`, the full flag is `c ≤ n`, and
`GetAll` is the last `min n c` writes in order. -/
lemma add_step (c : ℕ) (hc : 0 < c) (xs : List ℚ) (cb : CircularBuffer) (v : ℚ)
    (h1 : cb.data.length = c) (h2 : cb.head = xs.length % c)
    (h3 : cb.full = decide (c ≤ xs.length))
    (h4 : cb.GetAll = xs.drop (xs.length - c)) :
    (cb.Add v).data.length = c ∧
    (cb.Add v).head = (xs ++ [v]).length % c ∧
    (cb.Add v).full = decide (c ≤ (xs ++ [v]).length) ∧
    (cb.Add v).GetAll = (xs ++ [v]).drop ((xs ++ [v]).length - c) := by
  set n := xs.length with hn
  have hlen : (xs ++ [v]).length = n + 1 := by simp [hn]
  have hhd : cb.head < c := by
    rw [h2]
    exact Nat.mod_lt _ hc
  have hset_len : (cb.Add v).data.length = c := by
    simp only [CircularBuffer.Add, List.length_set, h1]
  have hhead' : (cb.Add v).head = (cb.head + 1) % c := by
    simp only [CircularBuffer.Add, h1]
  have hfull' : (cb.Add v).full = (cb.full || decide ((cb.head + 1) % c = 0)) := by
    simp only [CircularBuffer.Add, h1]
  have hdata' : (cb.Add v).data = cb.data.take cb.head ++ v :: cb.data.drop (cb.head + 1) := by
    simp only [CircularBuffer.Add]
    exact List.set_eq_take_cons_drop v (by omega)
  have htk_len : (cb.data.take cb.head).length = cb.head := by
    rw [List.length_take]
    omega
  refine ⟨hset_len, ?_, ?_, ?_⟩
  · rw [hhead', hlen, h2, Nat.mod_add_mod]
  · rw [hfull', hlen, h3, h2]
    rcases Nat.lt_or_ge (n + 1) c with hlt | hge
    · have hnc : ¬ c ≤ n := by omega
      have hnc1 : ¬ c ≤ n + 1 := by omega
      have hmod : n % c = n := Nat.mod_eq_of_lt (by omega)
      have hm1 : (n + 1) % c = n + 1 := Nat.mod_eq_of_lt hlt
      rw [hmod, hm1]
      simp [hnc, hnc1]
    · by_cases hcn : c ≤ n
      · have hcn1 : c ≤ n + 1 := by omega
        simp [hcn, hcn1]
      · have hceq : c = n + 1 := by omega
        have hmod : n % c = n := Nat.mod_eq_of_lt (by omega)
        have hm0 : (n + 1) % c = 0 := by
          rw [hceq]
          exact Nat.mod_self (n + 1)
        rw [hmod, hm0]
        simp [hcn, hge]
  · by_cases hcn : c ≤ n
    · have hfull : cb.full = true := by
        rw [h3]
        simp [hcn]
      have hw : cb.data.drop cb.head ++ cb.data.take cb.head = xs.drop (n - c) := by
        rw [← h4]
        simp [CircularBuffer.GetAll, hfull]
      have hdropc : cb.data.drop cb.head =
          cb.data.get ⟨cb.head, by omega⟩ :: cb.data.drop (cb.head + 1) :=
        List.drop_eq_getElem_cons (by omega)
      have htail : (xs.drop (n - c)).tail =
          cb.data.drop (cb.head + 1) ++ cb.data.take cb.head := by
        conv_lhs => rw [← hw]
        rw [hdropc]
        simp only [List.cons_append, List.tail_cons]
      have hfull2 : (cb.Add v).full = true := by
        rw [hfull']
        rw [hfull]
        simp
      have hgoal_rhs : (xs ++ [v]).drop ((xs ++ [v]).length - c) =
          (xs.drop (n - c)).tail ++ [v] := by
        rw [hlen]
        rw [List.drop_append_eq_append_drop]
        have e0 : n + 1 - c - xs.length = 0 := by omega
        rw [e0]
        simp only [List.drop_zero]
        congr 1
        have e1 : n + 1 - c = (n - c) + 1 := by omega
        rw [e1, ← List.drop_drop, List.drop_one]
      rw [hgoal_rhs, htail]
      simp only [CircularBuffer.GetAll, hfull2, if_true]
      by_cases hh1 : cb.head + 1 < c
      · have hmod : (cb.head + 1) % c = cb.head + 1 := Nat.mod_eq_of_lt hh1
        rw [hhead', hmod, hdata']
        rw [List.drop_append_eq_append_drop, List.take_append_eq_append_take]
        rw [htk_len]
        have e1 : (cb.data.take cb.head).drop (cb.head + 1) = ([] : List ℚ) :=
          List.drop_eq_nil_of_le (by rw [htk_len]; omega)
        have e2 : cb.head + 1 - cb.head = 1 := by omega
        rw [e1, e2]
        simp only [List.nil_append, List.drop_one, List.tail_cons]
        rw [List.take_of_length_le (by rw [htk_len]; omega)]
        have e3 : (v :: cb.data.drop (cb.head + 1)).take 1 = [v] := by simp
        rw [e3, List.append_assoc]
      · have hceq : cb.head + 1 = c := by omega
        have hmod : (cb.head + 1) % c = 0 := by
          rw [hceq]
          exact Nat.mod_self c
        rw [hhead', hmod, hdata']
        simp only [List.drop_zero, List.take_zero, List.append_nil]
        have e1 : cb.data.drop (cb.head + 1) = [] :=
          List.drop_eq_nil_of_le (by omega)
        rw [e1]
        simp
    · have hnlt : n < c := by omega
      have hfull : cb.full = false := by
        rw [h3]
        simp [hcn]
      have hmodn : n % c = n := Nat.mod_eq_of_lt hnlt
      have hhead_eq : cb.head = n := by rw [h2, hmodn]
      have hw : cb.data.take cb.head = xs := by
        have hge : cb.GetAll = cb.data.take cb.head := by
          simp [CircularBuffer.GetAll, hfull]
        rw [← hge, h4, Nat.sub_eq_zero_of_le hnlt.le, List.drop_zero]
      have hrhs : (xs ++ [v]).drop ((xs ++ [v]).length - c) = xs ++ [v] := by
        rw [hlen]
        have : n + 1 - c = 0 := by omega
        rw [this, List.drop_zero]
      rw [hrhs]
      rw [hhead_eq] at hdata' htk_len hhead' hfull' hw
      by_cases hh1 : n + 1 < c
      · have hmod : (n + 1) % c = n + 1 := Nat.mod_eq_of_lt hh1
        have hfull2 : (cb.Add v).full = false := by
          rw [hfull', hfull, hmod]
          simp
        simp only [CircularBuffer.GetAll, hfull2, Bool.false_eq_true, if_false]
        rw [hhead', hmod, hdata']
        rw [List.take_append_eq_append_take]
        rw [htk_len]
        have e2 : n + 1 - n = 1 := by omega
        rw [e2]
        have e3 : (v :: cb.data.drop (n + 1)).take 1 = [v] := by simp
        rw [e3]
        rw [List.take_of_length_le (by rw [htk_len]; omega)]
        rw [hw]
      · have hceq : n + 1 = c := by omega
        have hmod : (n + 1) % c = 0 := by
          rw [hceq]
          exact Nat.mod_self c
        have hfull2 : (cb.Add v).full = true := by
          rw [hfull', hmod]
          simp
        simp only [CircularBuffer.GetAll, hfull2, if_true]
        rw [hhead', hmod, hdata']
        simp only [List.drop_zero, List.take_zero, List.append_nil]
        have e1 : cb.data.drop (n + 1) = [] :=
          List.drop_eq_nil_of_le (by omega)
        rw [e1, hw]

/-- The buffer invariant holds after feeding any sequence into a fresh
buffer of positive capacity. -/
lemma feed_spec (c : ℕ) (hc : 0 < c) (xs : List ℚ) :
    (feed (newCircularBuffer (c : ℤ)) xs).data.length = c ∧
    (feed (newCircularBuffer (c : ℤ)) xs).head = xs.length % c ∧
    (feed (newCircularBuffer (c : ℤ)) xs).full = decide (c ≤ xs.length) ∧
    (feed (newCircularBuffer (c : ℤ)) xs).GetAll = xs.drop (xs.length - c) := by
  induction xs using List.reverseRecOn with
  | nil =>
      have hne : ¬ ((c : ℤ) ≤ 0) := not_le.mpr (by exact_mod_cast hc)
      have hfeed : feed (newCircularBuffer (c : ℤ)) [] = newCircularBuffer (c : ℤ) := rfl
      rw [hfeed]
      have hbuf : newCircularBuffer (c : ℤ) = ⟨List.replicate c 0, 0, false⟩ := by
        simp only [newCircularBuffer, if_neg hne]
        congr 1
      rw [hbuf]
      refine ⟨by simp, by simp, ?_, ?_⟩
      · simp only [List.length_nil]
        rw [show decide (c ≤ 0) = false from decide_eq_false (by omega)]
      · simp [CircularBuffer.GetAll]
  | append_singleton ys v ih =>
      obtain ⟨i1, i2, i3, i4⟩ := ih
      have hstep := add_step c hc ys _ v i1 i2 i3 i4
      simpa only [feed, List.foldl_append, List.foldl_cons, List.foldl_nil] using hstep

/-- C8: for every capacity `c ≥ 1` and every sequence of values fed via
`Add` into a fresh buffer, `GetAll` returns exactly the last
`min n c` appended values in chronological order (oldest first); before
the buffer fills it returns exactly the values written so far. -/
theorem circular_buffer_chronological (c : ℤ) (hc : 1 ≤ c) (xs : List ℚ) :
    (feed (newCircularBuffer c) xs).GetAll = xs.drop (xs.length - c.toNat) ∧
    (feed (newCircularBuffer c) xs).GetAll.length = min xs.length c.toNat := by
  have hc' : 0 < c.toNat := by omega
  have hcc : ((c.toNat : ℤ)) = c := Int.toNat_of_nonneg (by omega)
  have h := feed_spec c.toNat hc' xs
  rw [hcc] at h
  refine ⟨h.2.2.2, ?_⟩
  rw [h.2.2.2, List.length_drop]
  omega

/-- Witness for C8: the spec's sliding-window scenario, capacity 3 fed
`[10,20,30,40,50]`, retrieves `[30,40,50]`. -/
theorem circular_buffer_chronological_witness :
    (feed (newCircularBuffer 3) [10, 20, 30, 40, 50]).GetAll = [(30 : ℚ), 40, 50] :=
  ((circular_buffer_chronological 3 (by norm_num) [10, 20, 30, 40, 50]).1).trans (by rfl)

/- ### Sparkline renderer (spark.go)

The input stream is modelled after Go's field-splitting and
`strconv.ParseFloat`: a list of tokens, where `none` is an unparsable
token (skipped by the code) and `some q` a parsed number. The writer
output is the returned character list. Stream read errors cannot occur
for a pure list input, and every modelled path returns a nil error in
Go, so no error channel is needed here. -/

/-- `SparkCharacters` (spark.go): the fixed 8-glyph intensity ramp. -/
def SparkCharacters : List Char := [' ', '▂', '▃', '▄', '▅', '▆', '▇', '█']

/-- `ColorNone` (spark.go): the empty escape string (no decoration). -/
def ColorNone : String := ""

/-- `ColorReset` (spark.go). -/
def ColorReset : String := "\x1b[0m"

/-- `SparkConfig` (spark.go). -/
structure SparkConfig where
  Min : ℚ
  Max : ℚ
  HasMin : Bool
  HasMax : Bool
  Width : ℤ
  Color : String

/-- Go's `int(x)` conversion for a finite value: truncation toward
zero. -/
def truncQ (q : ℚ) : ℤ := if q < 0 then -⌊-q⌋ else ⌊q⌋

/-- The all-finite-argument behaviour of `Limit` (interval.go), used by
the renderer, which clamps only finite index values: order the bounds,
then clamp. -/
def limitFin (val mn mx : ℚ) : ℚ :=
  let p := if mn > mx then (mx, mn) else (mn, mx)
  if val < p.1 then p.1 else if val > p.2 then p.2 else val

/-- `limitFin` agrees with the full `Limit` embedding on finite
values. -/
lemma limit_fin_agrees (val mn mx : ℚ) :
    Limit (FV.fin val) (FV.fin mn) (FV.fin mx) = FV.fin (limitFin val mn mx) := by
  have hlt : ∀ p q : ℚ, FV.lt (FV.fin p) (FV.fin q) = decide (p < q) := fun p q => rfl
  simp only [Limit, limitFin, FV.isNan, FV.gt, hlt, Bool.or_self, Bool.or_false,
    Bool.false_eq_true, if_false, reduceCtorEq, gt_iff_lt]
  by_cases h1 : mx < mn
  · by_cases h2 : val < mx
    · simp [hlt, h1, h2]
    · by_cases h3 : mn < val
      · simp [hlt, h1, h2, h3]
      · simp [hlt, h1, h2, h3]
  · by_cases h2 : val < mn
    · simp [hlt, h1, h2]
    · by_cases h3 : mx < val
      · simp [hlt, h1, h2, h3]
      · simp [hlt, h1, h2, h3]

/-- The glyph-index computation appearing identically in
`generateSparklineFromSlice`, `renderSlidingWindow` and
`renderGrowingCharacter` (spark.go): when `max > min`, remap into
`[0, len(SparkCharacters)-1]` (keeping Go's zero value result when
`Remap` errors), else stay at index `0`; then clamp with `Limit` and
truncate to `int`. -/
def sparkCharIndex (num mn mx : ℚ) : ℤ :=
  let charIndex : ℚ :=
    if mx > mn then (Remap num mn mx 0 ((SparkCharacters.length : ℚ) - 1)).getD 0 else 0
  truncQ (limitFin charIndex 0 ((SparkCharacters.length : ℚ) - 1))

/-- The ramp glyph selected for a sample (`SparkCharacters[clampedIndex]`
in spark.go). -/
def sparkGlyph (num mn mx : ℚ) : Char :=
  SparkCharacters.getD (sparkCharIndex num mn mx).toNat ' '

/-- `applyColor` (spark.go): wrap in a start-color/reset pair unless no
color is configured. -/
def applyColor (s : List Char) (color : String) : List Char :=
  if color = ColorNone then s else color.data ++ s ++ ColorReset.data

/-- The running-minimum scan of `generateSparklineFromSlice` (spark.go),
seeded with `+Inf` in Go; on a nonempty slice this equals the fold from
the first element (the model has no infinities, and the empty case sits
behind the emptiness guard). -/
def goMin : List ℚ → ℚ
  | [] => 0
  | h :: t => t.foldl (fun m x => if x < m then x else m) h

/-- The running-maximum scan of `generateSparklineFromSlice`, analogous
to `goMin`. -/
def goMax : List ℚ → ℚ
  | [] => 0
  | h :: t => t.foldl (fun m x => if x > m then x else m) h

/-- Embedding of `generateSparklineFromSlice` (spark.go): empty input
writes nothing (and returns nil before any color codes); otherwise the
scale is the fixed bound or the slice min/max, one glyph per sample,
color applied around the whole string. -/
def generateSparklineFromSlice (numbers : List ℚ) (config : SparkConfig) : List Char :=
  if numbers.length = 0 then []
  else
    let mn := if config.HasMin then config.Min else goMin numbers
    let mx := if config.HasMax then config.Max else goMax numbers
    applyColor (numbers.map fun num => sparkGlyph num mn mx) config.Color

/-- Embedding of `circularBuffer.MinMax` (spark.go): `(0,0)` for an
empty snapshot, else scan from the first element. -/
def CircularBuffer.MinMax (cb : CircularBuffer) : ℚ × ℚ :=
  match cb.GetAll with
  | [] => (0, 0)
  | h :: t => (t.foldl (fun m v => if v < m then v else m) h,
               t.foldl (fun m v => if v > m then v else m) h)

/-- Embedding of `renderSlidingWindow` (spark.go): a carriage return,
then the colored glyphs of the whole visible window. -/
def renderSlidingWindow (buffer : CircularBuffer) (mn mx : ℚ) (color : String) : List Char :=
  '\r' :: applyColor (buffer.GetAll.map fun num => sparkGlyph num mn mx) color

/-- Embedding of `renderGrowingCharacter` (spark.go): one glyph. -/
def renderGrowingCharacter (val mn mx : ℚ) : List Char :=
  [sparkGlyph val mn mx]

/-- The `config.Width > 0` loop body of `generateSparklineStream`
(spark.go): push each parsed value into the buffer, pick the fixed or
buffer-derived scale, and emit a full redraw frame. -/
def slidingLoop (config : SparkConfig) (buffer : CircularBuffer) : List ℚ → List Char
  | [] => []
  | v :: rest =>
      let buf := buffer.Add v
      let p := if config.HasMin then (config.Min, config.Max) else buf.MinMax
      renderSlidingWindow buf p.1 p.2 config.Color ++ slidingLoop config buf rest

/-- Embedding of `generateSparklineStream` (spark.go): sliding-window
mode when a positive width is configured, otherwise the growing
fixed-interval mode that emits one colored glyph per parsed value. -/
def generateSparklineStream (input : List (Option ℚ)) (config : SparkConfig) : List Char :=
  let vals := input.filterMap id
  if 0 < config.Width then
    slidingLoop config (newCircularBuffer config.Width) vals
  else
    (vals.map fun v =>
      applyColor (renderGrowingCharacter v config.Min config.Max) config.Color).flatten

/-- Embedding of `GenerateSparkline` (spark.go): stream mode for a
positive width or a fixed lower bound; otherwise buffer all parsed
numbers (`readAllNumbers`) and render from the slice. -/
def GenerateSparkline (input : List (Option ℚ)) (config : SparkConfig) : List Char :=
  if 0 < config.Width ∨ config.HasMin = true then
    generateSparklineStream input config
  else
    generateSparklineFromSlice (input.filterMap id) config

/- ### Claim C9: zero-width scale maps every sample to ramp index 0 -/

/-- The shared glyph-index rule at a zero-width scale: the `max > min`
test fails, so the index stays 0. -/
lemma sparkCharIndex_zero_width (num mn : ℚ) : sparkCharIndex num mn mn = 0 := by
  unfold sparkCharIndex
  rw [if_neg (lt_irrefl mn)]
  norm_num [limitFin, truncQ, SparkCharacters]

/-- At a zero-width scale every sample renders as the ramp's first
glyph (the space character). -/
lemma sparkGlyph_zero_width (num mn : ℚ) : sparkGlyph num mn mn = ' ' := by
  unfold sparkGlyph
  rw [sparkCharIndex_zero_width]
  rfl

/-- The running-minimum scan over a constant list stays at that
constant. -/
lemma foldl_min_replicate (v : ℚ) (m : ℕ) :
    (List.replicate m v).foldl (fun acc x => if x < acc then x else acc) v = v := by
  induction m with
  | zero => rfl
  | succ k ih =>
      rw [List.replicate_succ, List.foldl_cons, if_neg (lt_irrefl v)]
      exact ih

/-- The running-maximum scan over a constant list stays at that
constant. -/
lemma foldl_max_replicate (v : ℚ) (m : ℕ) :
    (List.replicate m v).foldl (fun acc x => if x > acc then x else acc) v = v := by
  induction m with
  | zero => rfl
  | succ k ih =>
      rw [List.replicate_succ, List.foldl_cons, if_neg (lt_irrefl v)]
      exact ih

/-- `goMin` of an all-equal nonempty slice is the common value. -/
lemma goMin_replicate (k : ℕ) (v : ℚ) : goMin (List.replicate (k + 1) v) = v := by
  rw [List.replicate_succ]
  exact foldl_min_replicate v k

/-- `goMax` of an all-equal nonempty slice is the common value. -/
lemma goMax_replicate (k : ℕ) (v : ℚ) : goMax (List.replicate (k + 1) v) = v := by
  rw [List.replicate_succ]
  exact foldl_max_replicate v k

/-- Mapping the zero-width glyph over any sample list yields all-space
glyphs. -/
lemma map_glyph_zero_width (l : List ℚ) (mn : ℚ) :
    (l.map fun num => sparkGlyph num mn mn) = List.replicate l.length ' ' := by
  induction l with
  | nil => rfl
  | cons h t ih => simp [sparkGlyph_zero_width, ih, List.replicate_succ]

/-- Flattening one-glyph fragments gives one character per sample. -/
lemma flatten_map_const_singleton (l : List ℚ) (c : Char) :
    (l.map fun _ => [c]).flatten = List.replicate l.length c := by
  induction l with
  | nil => rfl
  | cons h t ih => simp [ih, List.replicate_succ]

/-- Every character a zero-width-scale sliding-window session emits is
either the carriage return or the lowest-intensity glyph. -/
lemma slidingLoop_zero_width_mem (mn : ℚ) (hasMax : Bool) (w : ℤ) :
    ∀ (vals : List ℚ) (buf : CircularBuffer) (ch : Char),
      ch ∈ slidingLoop ⟨mn, mn, true, hasMax, w, ColorNone⟩ buf vals →
      ch = '\r' ∨ ch = ' ' := by
  intro vals
  induction vals with
  | nil =>
      intro buf ch hch
      exact absurd hch (List.not_mem_nil ch)
  | cons v rest ih =>
      intro buf ch hch
      rw [show slidingLoop ⟨mn, mn, true, hasMax, w, ColorNone⟩ buf (v :: rest) =
            renderSlidingWindow (buf.Add v) mn mn ColorNone ++
              slidingLoop ⟨mn, mn, true, hasMax, w, ColorNone⟩ (buf.Add v) rest from rfl] at hch
      rcases List.mem_append.mp hch with hch | hch
      · rw [show renderSlidingWindow (buf.Add v) mn mn ColorNone =
              '\r' :: ((buf.Add v).GetAll.map fun num => sparkGlyph num mn mn) from by
            unfold renderSlidingWindow applyColor
            rw [if_pos rfl]] at hch
        rcases List.mem_cons.mp hch with h | h
        · exact Or.inl h
        · right
          obtain ⟨x, _, hxe⟩ := List.mem_map.mp h
          rw [← hxe, sparkGlyph_zero_width]
      · exact ih _ ch hch

/-- C9: the shared glyph-index rule maps every sample to index 0 when
the active scale has zero width; accordingly the auto-scaled slice mode
renders an all-equal input as one lowest-intensity glyph per sample,
the fixed-interval growing mode with a zero-width interval renders only
lowest-intensity glyphs, and a zero-width fixed-interval sliding-window
session emits only carriage returns and lowest-intensity glyphs. -/
theorem zero_width_scale_lowest_glyph (mn num v : ℚ) (n : ℕ) (hn : 0 < n)
    (input : List (Option ℚ)) (w : ℤ) :
    sparkCharIndex num mn mn = 0 ∧
    sparkGlyph num mn mn = SparkCharacters.getD 0 ' ' ∧
    GenerateSparkline (List.replicate n (some v))
      ⟨0, 0, false, false, 0, ColorNone⟩ = List.replicate n ' ' ∧
    generateSparklineStream input ⟨mn, mn, true, true, 0, ColorNone⟩ =
      List.replicate (input.filterMap id).length ' ' ∧
    (∀ ch ∈ generateSparklineStream input ⟨mn, mn, true, true, w, ColorNone⟩,
      ch = '\r' ∨ ch = ' ') := by
  obtain ⟨k, rfl⟩ : ∃ k, n = k + 1 := ⟨n - 1, by omega⟩
  refine ⟨sparkCharIndex_zero_width num mn, sparkGlyph_zero_width num mn, ?_, ?_, ?_⟩
  · have hf : (List.replicate (k + 1) (some v)).filterMap id = List.replicate (k + 1) v := by
      simp
    unfold GenerateSparkline
    rw [if_neg (by norm_num), hf]
    unfold generateSparklineFromSlice
    rw [if_neg (by simp)]
    simp only [Bool.false_eq_true, if_false, goMin_replicate, goMax_replicate]
    rw [map_glyph_zero_width, List.length_replicate]
    unfold applyColor
    exact if_pos rfl
  · unfold generateSparklineStream
    rw [if_neg (by norm_num)]
    rw [List.map_congr_left (fun x _ => show
        applyColor (renderGrowingCharacter x mn mn) ColorNone = [' '] from by
      unfold applyColor renderGrowingCharacter
      rw [if_pos rfl, sparkGlyph_zero_width])]
    exact flatten_map_const_singleton _ ' '
  · intro ch hch
    by_cases hw : 0 < w
    · unfold generateSparklineStream at hch
      rw [if_pos hw] at hch
      exact slidingLoop_zero_width_mem mn true w (input.filterMap id)
        (newCircularBuffer w) ch hch
    · unfold generateSparklineStream at hch
      rw [if_neg hw] at hch
      rw [List.map_congr_left (fun x _ => show
          applyColor (renderGrowingCharacter x mn mn) ColorNone = [' '] from by
        unfold applyColor renderGrowingCharacter
        rw [if_pos rfl, sparkGlyph_zero_width])] at hch
      rw [flatten_map_const_singleton _ ' '] at hch
      exact Or.inr (List.eq_of_mem_replicate hch)

/-- Witness for C9 at `mn = 1, num = 2, v = 3, n = 2`, one-token input,
window width 1. -/
theorem zero_width_scale_lowest_glyph_witness :
    sparkCharIndex 2 1 1 = 0 ∧
    sparkGlyph 2 1 1 = SparkCharacters.getD 0 ' ' ∧
    GenerateSparkline (List.replicate 2 (some (3 : ℚ)))
      ⟨0, 0, false, false, 0, ColorNone⟩ = List.replicate 2 ' ' ∧
    generateSparklineStream [some (4 : ℚ)] ⟨1, 1, true, true, 0, ColorNone⟩ =
      List.replicate ([some (4 : ℚ)].filterMap id).length ' ' ∧
    (∀ ch ∈ generateSparklineStream [some (4 : ℚ)] ⟨1, 1, true, true, 1, ColorNone⟩,
      ch = '\r' ∨ ch = ' ') :=
  zero_width_scale_lowest_glyph 1 2 3 2 (by norm_num) [some (4 : ℚ)] 1

/- ### Claim C10: no parseable numbers, no output, no error -/

/-- C10: with zero parseable tokens, `GenerateSparkline` writes nothing
regardless of the configuration (every modelled path also returns a nil
error in Go). -/
theorem sparkline_no_parse_no_output (input : List (Option ℚ)) (config : SparkConfig)
    (h : input.filterMap id = ([] : List ℚ)) :
    GenerateSparkline input config = [] := by
  simp only [GenerateSparkline, generateSparklineStream, generateSparklineFromSlice, h]
  by_cases h1 : 0 < config.Width ∨ config.HasMin = true
  · rw [if_pos h1]
    by_cases h2 : 0 < config.Width
    · rw [if_pos h2]
      rfl
    · rw [if_neg h2]
      rfl
  · rw [if_neg h1]
    rfl

/-- Witness for C10: two unparsable tokens under a sliding-window
configuration produce no output. -/
theorem sparkline_no_parse_no_output_witness :
    GenerateSparkline [none, none] ⟨0, 0, false, false, 2, ColorNone⟩ = [] :=
  sparkline_no_parse_no_output [none, none] ⟨0, 0, false, false, 2, ColorNone⟩ (by simp)

end Span
